import Mathlib

/-
  Verification of the shortage-tracking core of the ai-studio dashboard.

  The data model is translated from the repository type declarations
  (UserRole, UserRoleRow, ERPRawRow, TrackingRow) and the operations from
  the MockSheetService class (calculateStatus, the row mutators,
  importShortages in its replace and merge modes, importWODetails,
  login, addUser, deleteUser).

  Conventions of the embedding:
  - JavaScript string truthiness is modelled as "non-empty string"; an
    optional field that may be absent is an Option String, and its
    truthiness is "present and non-empty".
  - The id strings produced from Date.now() and Math.random() carry no
    logical content; they are modelled by the batch index of the record
    that produced the row.
  - localStorage persistence is modelled for the user collection as a
    second copy of the list inside UserState; save copies the live list
    into the store.
  - The in-place mutation of a row obtained from the key map in merge
    mode is modelled by updating the last element of the list whose key
    matches (the JavaScript Map keeps the last row inserted for a key).
-/

namespace ST

inductive UserRole where
  | admin
  | scheduler
  | purchaser
  | business
deriving DecidableEq, Repr

structure UserRoleRow where
  username : String
  role : UserRole
deriving DecidableEq, Repr

inductive Status where
  | Pending
  | Confirmed
  | Late
  | Ready
deriving DecidableEq, Repr

/-- Tracking_Schedule row, translated from the TrackingRow interface.
The stage field is typed as a string: the source annotates it with the
three literals SMT, Assembly and Packing but writes arbitrary strings
into it through an unchecked cast in importWODetails. -/
structure TrackingRow where
  id : String
  model : String
  workOrder : String
  productPartNumber : Option String
  partNumber : String
  partName : String
  specification : String
  stage : String
  vendor : String
  supplier : String
  shortageQty : Int
  productionDate : Option String
  oqcDate : String
  isMaterialReady : Bool
  purchaserReplyDate : String
  purchaserRemark : String
  status : Status
  purchaserUsername : String
  isArchived : Bool
deriving DecidableEq, Repr

/-- Incoming shortage record: Omit ERPRawRow id, as taken by importShortages. -/
structure ERPRecord where
  model : String
  workOrder : String
  partNumber : String
  partName : String
  specification : String
  supplier : String
  shortageQty : Int
  requiredDate : String
  uploadBatch : String
deriving DecidableEq, Repr

/-- Incoming work-order-detail record, as taken by importWODetails. -/
structure WODetailRecord where
  workOrder : String
  model : String
  vendor : String
  stage : Option String
  productPartNumber : Option String
  productionDate : Option String
deriving DecidableEq, Repr

/-- JavaScript truthiness of an optional string field. -/
def truthy (s : Option String) : Bool :=
  match s with
  | none => false
  | some t => t != ""

/-- The composite key string of a tracking row: workOrder-partNumber. -/
def rowKey (r : TrackingRow) : String := r.workOrder ++ "-" ++ r.partNumber

/-- The composite key string of an incoming shortage record. -/
def recKey (d : ERPRecord) : String := d.workOrder ++ "-" ++ d.partNumber

/-- The composite identity of a tracking row as an actual pair. -/
def rowPair (r : TrackingRow) : String × String := (r.workOrder, r.partNumber)

/-- The composite identity of an incoming shortage record as a pair. -/
def recPair (d : ERPRecord) : String × String := (d.workOrder, d.partNumber)

/-- calculateStatus, lines 50-54 of the service. -/
def calculateStatus (r : TrackingRow) : Status :=
  if r.isMaterialReady then Status.Ready
  else if r.purchaserReplyDate = "" then Status.Pending
  else Status.Confirmed

/-- Pair a list with 0-based indices, standing in for forEach index /
enumeration of a batch. -/
def withIdx (n : Nat) : List α → List (Nat × α)
  | [] => []
  | a :: as => (n, a) :: withIdx (n + 1) as

/-! ## Row mutators -/

/-- Update the first element satisfying p, as Array.prototype.find
followed by an in-place mutation does. -/
def updateFirst (p : TrackingRow → Bool) (f : TrackingRow → TrackingRow) :
    List TrackingRow → List TrackingRow
  | [] => []
  | r :: rs => if p r then f r :: rs else r :: updateFirst p f rs

/-- updateDeliveryDate, lines 56-65: set purchaserReplyDate on the row
with the given id, recompute its status. -/
def updateDeliveryDate (ts : List TrackingRow) (rowId newDate : String) :
    List TrackingRow × Bool :=
  if ts.any (fun r => r.id == rowId) then
    (updateFirst (fun r => r.id == rowId)
      (fun r =>
        let r1 := { r with purchaserReplyDate := newDate }
        { r1 with status := calculateStatus r1 }) ts, true)
  else (ts, false)

/-- updatePurchaserRemark, lines 67-75: set purchaserRemark on the row
with the given id; no status recomputation. -/
def updatePurchaserRemark (ts : List TrackingRow) (rowId remark : String) :
    List TrackingRow × Bool :=
  if ts.any (fun r => r.id == rowId) then
    (updateFirst (fun r => r.id == rowId)
      (fun r => { r with purchaserRemark := remark }) ts, true)
  else (ts, false)

/-- updateStageDate, lines 77-91: set oqcDate on every row sharing
workOrder and stage, recomputing each status. -/
def updateStageDate (ts : List TrackingRow) (workOrder stage newDate : String) :
    List TrackingRow × Bool :=
  (ts.map (fun r =>
      if r.workOrder == workOrder && r.stage == stage then
        let r1 := { r with oqcDate := newDate }
        { r1 with status := calculateStatus r1 }
      else r),
   ts.any (fun r => r.workOrder == workOrder && r.stage == stage))

/-- updateStageReady, lines 93-107: set isMaterialReady on every row
sharing workOrder and stage, recomputing each status. -/
def updateStageReady (ts : List TrackingRow) (workOrder stage : String) (isReady : Bool) :
    List TrackingRow × Bool :=
  (ts.map (fun r =>
      if r.workOrder == workOrder && r.stage == stage then
        let r1 := { r with isMaterialReady := isReady }
        { r1 with status := calculateStatus r1 }
      else r),
   ts.any (fun r => r.workOrder == workOrder && r.stage == stage))

/-- archiveModel, lines 109-118: set isArchived on every row whose model
matches case- and whitespace-insensitively. -/
def archiveModel (ts : List TrackingRow) (modelName : String) (isArchived : Bool) :
    List TrackingRow :=
  ts.map (fun r =>
    if r.model.trim.toLower == modelName.trim.toLower then
      { r with isArchived := isArchived }
    else r)

/-! ## Shortage import, replace mode (lines 135-203) -/

/-- The list of work orders appearing in the batch. Object.keys of the
grouping record; only membership in it is ever used, so the
first-occurrence deduplication performed by the record is immaterial. -/
def targetWOs (data : List ERPRecord) : List String := data.map (·.workOrder)

structure MetaSnapshot where
  model : String
  vendor : String
  stage : String
  prodDate : String
  productPN : String
deriving DecidableEq, Repr

/-- One entry of the metadataMap of lines 160-173: the first row of the
given work order wins; productionDate and productPartNumber fall back to
the empty string. The source populates the map only for work orders in
targetWOs and only ever looks up such work orders, so a plain first-match
lookup is equivalent. -/
def findMeta (ts : List TrackingRow) (wo : String) : Option MetaSnapshot :=
  (ts.find? (fun r => r.workOrder == wo)).map (fun r =>
    { model := r.model
      vendor := r.vendor
      stage := r.stage
      prodDate := r.productionDate.getD ""
      productPN := r.productPartNumber.getD "" })

def defaultMeta : MetaSnapshot :=
  { model := "Unknown", vendor := "", stage := "SMT", prodDate := "", productPN := "" }

/-- The row built for one incoming record in replace mode, lines 179-202.
tsMeta is the list the metadataMap was built from. -/
def mkReplaceRow (tsMeta : List TrackingRow) (i : Nat) (d : ERPRecord) : TrackingRow :=
  let meta := (findMeta tsMeta d.workOrder).getD defaultMeta
  { id := "track-" ++ toString i
    model := if d.model != "" then d.model else meta.model
    workOrder := d.workOrder
    partNumber := d.partNumber
    partName := d.partName
    specification := d.specification
    supplier := d.supplier
    shortageQty := d.shortageQty
    stage := meta.stage
    vendor := meta.vendor
    productPartNumber := some meta.productPN
    productionDate := some meta.prodDate
    oqcDate := ""
    isMaterialReady := false
    purchaserReplyDate := ""
    purchaserRemark := ""
    status := Status.Pending
    purchaserUsername := ""
    isArchived := false }

/-- Replace mode. The source deletes the rows of the target work orders
at line 137, then builds the metadataMap from the already filtered list
at lines 160-173, filters again at line 176 and appends the new rows. -/
def importShortagesReplace (ts : List TrackingRow) (data : List ERPRecord) :
    List TrackingRow :=
  let wos := targetWOs data
  let ts1 := ts.filter (fun r => !(wos.contains r.workOrder))
  let ts2 := ts1.filter (fun r => !(wos.contains r.workOrder))
  ts2 ++ (withIdx 0 data).map (fun p => mkReplaceRow ts1 p.1 p.2)

/-! ## Shortage import, merge mode (lines 207-264) -/

/-- The quantity update applied to an existing row matched by key,
lines 218-219: overwrite shortageQty, then force Ready when the new
quantity is zero, otherwise keep the current status. -/
def updateShortage (d : ERPRecord) (r : TrackingRow) : TrackingRow :=
  let r1 := { r with shortageQty := d.shortageQty }
  { r1 with status := if r1.shortageQty = 0 then Status.Ready else r1.status }

/-- Update the last element satisfying p. The JavaScript Map, filled by
a forEach over the rows, keeps for each key the last row inserted, and
the in-place mutation through the map reference hits that row. -/
def updateLast (p : TrackingRow → Bool) (f : TrackingRow → TrackingRow) :
    List TrackingRow → List TrackingRow
  | [] => []
  | r :: rs =>
    if rs.any p then r :: updateLast p f rs
    else if p r then f r :: rs
    else r :: updateLast p f rs

/-- The row built for an incoming record with no key match, lines
227-247: metadata is inherited from the first current row sharing the
work order, with defaults when there is none. -/
def mkMergeRow (sibling : Option TrackingRow) (i : Nat) (d : ERPRecord) : TrackingRow :=
  { id := "track-merge-" ++ toString i
    model := match sibling with | some s => s.model | none => "Unknown"
    workOrder := d.workOrder
    partNumber := d.partNumber
    partName := d.partName
    specification := d.specification
    supplier := d.supplier
    shortageQty := d.shortageQty
    stage := match sibling with | some s => s.stage | none => "SMT"
    vendor := match sibling with | some s => s.vendor | none => ""
    productPartNumber := match sibling with | some s => s.productPartNumber | none => some ""
    productionDate := match sibling with | some s => s.productionDate | none => some ""
    oqcDate := ""
    isMaterialReady := false
    purchaserReplyDate := ""
    purchaserRemark := ""
    status := Status.Pending
    purchaserUsername := ""
    isArchived := false }

/-- One step of the merge update-or-add loop, lines 212-249. The key
lookup consults the map built over the rows present when the import
began (orig); the sibling search for a new row walks the current list. -/
def mergeStep (orig : List TrackingRow) (cur : List TrackingRow) (p : Nat × ERPRecord) :
    List TrackingRow :=
  let d := p.2
  if orig.any (fun r => rowKey r == recKey d) then
    updateLast (fun r => rowKey r == recKey d) (updateShortage d) cur
  else
    cur ++ [mkMergeRow (cur.find? (fun r => r.workOrder == d.workOrder)) p.1 d]

/-- The resolution sweep applied to one row, lines 256-264. -/
def sweepRow (wos : List String) (inKeys : List String) (r : TrackingRow) : TrackingRow :=
  if wos.contains r.workOrder then
    if !(inKeys.contains (rowKey r)) && (r.partNumber != "WO_INFO_ONLY") then
      { r with shortageQty := 0, status := Status.Ready }
    else r
  else r

/-- Merge mode: the update-or-add loop followed by the resolution sweep. -/
def importShortagesMerge (ts : List TrackingRow) (data : List ERPRecord) :
    List TrackingRow :=
  let afterUpserts := (withIdx 0 data).foldl (mergeStep ts) ts
  afterUpserts.map (sweepRow (targetWOs data) (data.map recKey))

inductive ImportMode where
  | replace
  | merge
deriving DecidableEq, Repr

/-- importShortages, lines 121-269, restricted to its effect on the
tracking collection; it persists and returns true unconditionally. -/
def importShortages (ts : List TrackingRow) (data : List ERPRecord)
    (mode : ImportMode) : List TrackingRow :=
  match mode with
  | ImportMode.replace => importShortagesReplace ts data
  | ImportMode.merge => importShortagesMerge ts data

/-! ## Work-order-detail import (lines 271-317) -/

/-- Stage normalization, lines 277-280: trim, default to SMT when absent
or blank, translate the three localized labels. -/
def normalizeStage (stage : Option String) : String :=
  let t := (stage.getD "").trim
  let s := if t = "" then "SMT" else t
  if s = "打件" then "SMT"
  else if s = "組裝" then "Assembly"
  else if s = "包裝" then "Packing"
  else s

/-- The skeleton row created for an unknown work order, lines 284-294. -/
def mkSkeleton (i : Nat) (info : WODetailRecord) : TrackingRow :=
  { id := "skel-" ++ toString i
    model := info.model
    workOrder := info.workOrder
    vendor := info.vendor
    stage := normalizeStage info.stage
    productPartNumber := info.productPartNumber
    productionDate := info.productionDate
    partNumber := "WO_INFO_ONLY"
    partName := ""
    specification := ""
    supplier := ""
    shortageQty := 0
    oqcDate := ""
    isMaterialReady := false
    purchaserReplyDate := ""
    purchaserRemark := ""
    status := Status.Ready
    purchaserUsername := ""
    isArchived := false }

/-- The metadata merge applied to one existing row, lines 299-308: each
field is overwritten only when the incoming record carries a truthy
value for it; the stage written is the normalized one. -/
def applyWOMeta (info : WODetailRecord) (r : TrackingRow) : TrackingRow :=
  if r.workOrder == info.workOrder then
    { r with
      model := if info.model != "" then info.model else r.model
      vendor := if info.vendor != "" then info.vendor else r.vendor
      productPartNumber :=
        if truthy info.productPartNumber then info.productPartNumber
        else r.productPartNumber
      productionDate :=
        if truthy info.productionDate then info.productionDate
        else r.productionDate
      stage := if truthy info.stage then normalizeStage info.stage else r.stage }
  else r

/-- One step of the importWODetails loop, lines 275-310: create a
skeleton when the work order matches no row across all stages, otherwise
merge the metadata into every row of that work order. -/
def woStep (ts : List TrackingRow) (p : Nat × WODetailRecord) : List TrackingRow :=
  let info := p.2
  if ts.any (fun r => r.workOrder == info.workOrder) then
    ts.map (applyWOMeta info)
  else
    ts ++ [mkSkeleton p.1 info]

/-- importWODetails, restricted to its effect on the tracking collection. -/
def importWODetails (ts : List TrackingRow) (data : List WODetailRecord) :
    List TrackingRow :=
  (withIdx 0 data).foldl woStep ts

/-! ## User management (lines 32-39 and 320-333) -/

/-- The user collection together with its persisted copy; save writes
the live list into the store. -/
structure UserState where
  usersRoles : List UserRoleRow
  store : List UserRoleRow
deriving DecidableEq, Repr

/-- login, lines 32-39: case-insensitive username lookup. -/
def loginFind (st : UserState) (username : String) : Option UserRoleRow :=
  st.usersRoles.find? (fun u => u.username.toLower == username.toLower)

/-- addUser, lines 321-326: reject a case-insensitive duplicate,
otherwise append and persist. -/
def addUser (st : UserState) (user : UserRoleRow) : UserState × Bool :=
  if st.usersRoles.any (fun u => u.username.toLower == user.username.toLower) then
    (st, false)
  else
    ({ usersRoles := st.usersRoles ++ [user], store := st.usersRoles ++ [user] }, true)

/-- deleteUser, lines 327-333: keep the users whose username differs
character for character from the argument; report success, and persist,
exactly when the list shrank. -/
def deleteUser (st : UserState) (username : String) : UserState × Bool :=
  let remaining := st.usersRoles.filter (fun u => u.username != username)
  let success := remaining.length < st.usersRoles.length
  ({ usersRoles := remaining, store := if success then remaining else st.store }, success)


/-! ## Claim C8: status calculator -/

/-- Claim C8: the derived status of a row equals Ready when
isMaterialReady is true, else Pending when purchaserReplyDate is empty,
else Confirmed; in particular calculateStatus never returns Late. -/
theorem calculateStatus_characterization (r : TrackingRow) :
    calculateStatus r =
      (if r.isMaterialReady then Status.Ready
       else if r.purchaserReplyDate = "" then Status.Pending
       else Status.Confirmed)
    ∧ calculateStatus r ≠ Status.Late := by
  refine ⟨rfl, ?_⟩
  unfold calculateStatus
  split
  · decide
  · split <;> decide

/-! ## Claim C9: the admin account and deleteUser -/

def c9Admin : UserRoleRow := { username := "admin", role := UserRole.admin }

def c9State : UserState :=
  { usersRoles := [c9Admin, { username := "alice", role := UserRole.scheduler }]
    store := [c9Admin, { username := "alice", role := UserRole.scheduler }] }

/-- Claim C9 counterexample: the service-level deleteUser has no guard
for the built-in admin account; called with the argument admin it
removes the admin record and reports success. -/
theorem deleteUser_removes_admin :
    c9Admin ∈ c9State.usersRoles
    ∧ c9Admin ∉ (deleteUser c9State "admin").1.usersRoles
    ∧ (deleteUser c9State "admin").2 = true := by decide

/-- Claim C9 (amended): deleteUser removes only records whose username
equals its argument, so for every argument other than admin a record
named admin survives; keeping the admin account undeletable is enforced
by the caller, which never invokes deleteUser with the admin username. -/
theorem deleteUser_preserves_admin (st : UserState) (u : String) (h : u ≠ "admin")
    (r : UserRoleRow) (hr : r ∈ st.usersRoles) (hname : r.username = "admin") :
    r ∈ (deleteUser st u).1.usersRoles := by
  have he : (deleteUser st u).1.usersRoles
      = st.usersRoles.filter (fun x => x.username != u) := rfl
  rw [he]
  refine List.mem_filter.mpr ⟨hr, ?_⟩
  simp only [hname, bne_iff_ne, ne_eq]
  exact fun hh => h hh.symm

/-- Witness for deleteUser_preserves_admin at a concrete state. -/
theorem deleteUser_preserves_admin_witness :
    ("alice" : String) ≠ "admin"
    ∧ c9Admin ∈ (deleteUser c9State "alice").1.usersRoles :=
  ⟨by decide,
   deleteUser_preserves_admin c9State "alice" (by decide) c9Admin (by decide) (by decide)⟩

/-! ## Claim C10: deleteUser is case-sensitive -/

/-- Claim C10: deleteUser keeps exactly the records whose username
differs character for character from its argument, succeeds exactly when
an exact match existed, and leaves the state (store included) untouched
when none did; by contrast addUser rejects and loginFind matches
usernames case-insensitively. -/
theorem deleteUser_case_sensitive (st : UserState) (u : String) (user : UserRoleRow) :
    (deleteUser st u).1.usersRoles = st.usersRoles.filter (fun r => r.username != u)
    ∧ ((deleteUser st u).2 = true ↔ ∃ r ∈ st.usersRoles, r.username = u)
    ∧ ((¬ ∃ r ∈ st.usersRoles, r.username = u) → deleteUser st u = (st, false))
    ∧ ((addUser st user).2 = true ↔
        ¬ ∃ r ∈ st.usersRoles, r.username.toLower = user.username.toLower)
    ∧ (loginFind st u ≠ none ↔ ∃ r ∈ st.usersRoles, r.username.toLower = u.toLower) := by
  refine ⟨rfl, ?_, ?_, ?_, ?_⟩
  · have he : (deleteUser st u).2
        = decide ((st.usersRoles.filter (fun r => r.username != u)).length
            < st.usersRoles.length) := rfl
    rw [he, decide_eq_true_iff, List.length_filter_lt_length_iff_exists]
    simp [bne_iff_ne]
  · intro hno
    have hall : ∀ r ∈ st.usersRoles, (fun x => x.username != u) r = true := by
      intro r hr
      simp only [bne_iff_ne, ne_eq]
      exact fun hh => hno ⟨r, hr, hh⟩
    have hfe : st.usersRoles.filter (fun x => x.username != u) = st.usersRoles :=
      List.filter_eq_self.mpr hall
    unfold deleteUser
    simp [hfe]
  · unfold addUser
    split
    · rename_i hyes
      simp only [List.any_eq_true, beq_iff_eq] at hyes
      simp only [Bool.false_eq_true, false_iff, not_not]
      obtain ⟨r, hr, hb⟩ := hyes
      exact ⟨r, hr, hb⟩
    · rename_i hnot
      simp only [List.any_eq_true, beq_iff_eq] at hnot
      simp only [true_iff]
      exact fun ⟨r, hr, hb⟩ => hnot ⟨r, hr, hb⟩
  · unfold loginFind
    constructor
    · intro hne
      cases hfind : st.usersRoles.find? (fun v => v.username.toLower == u.toLower) with
      | none => exact absurd hfind hne
      | some r =>
        have hr := List.mem_of_find?_eq_some hfind
        have hb := List.find?_some hfind
        simp only [beq_iff_eq] at hb
        exact ⟨r, hr, hb⟩
    · intro hex hn
      obtain ⟨r, hr, hb⟩ := hex
      have := List.find?_eq_none.mp hn r hr
      simp only [beq_iff_eq] at this
      exact this hb

def c10State : UserState :=
  { usersRoles := [{ username := "Admin", role := UserRole.admin }], store := [] }

/-- Witness for deleteUser_case_sensitive: deleting with a
differently-cased spelling of the only username is a no-op that reports
failure and does not persist. -/
theorem deleteUser_case_sensitive_witness :
    (¬ ∃ r ∈ c10State.usersRoles, r.username = "admin")
    ∧ deleteUser c10State "admin" = (c10State, false) :=
  ⟨by decide,
   (deleteUser_case_sensitive c10State "admin"
      { username := "x", role := UserRole.business }).2.2.1 (by decide)⟩

/-! ## Claim C6: skeleton creation by importWODetails -/

/-- Claim C6: a work-order-detail record whose work order matches no
existing tracking row (across all stages) makes importWODetails append
exactly one skeleton row: sentinel partNumber WO_INFO_ONLY, zero
quantity, status Ready, not archived, empty purchaser fields, and the
metadata of the record (with the stage normalized per lines 277-280). -/
theorem importWODetails_creates_skeleton (ts : List TrackingRow) (i : Nat)
    (info : WODetailRecord)
    (h : ¬ ∃ r ∈ ts, r.workOrder = info.workOrder) :
    woStep ts (i, info) = ts ++ [mkSkeleton i info]
    ∧ importWODetails ts [info] = ts ++ [mkSkeleton 0 info]
    ∧ (mkSkeleton i info).partNumber = "WO_INFO_ONLY"
    ∧ (mkSkeleton i info).shortageQty = 0
    ∧ (mkSkeleton i info).status = Status.Ready
    ∧ (mkSkeleton i info).isArchived = false
    ∧ (mkSkeleton i info).purchaserReplyDate = ""
    ∧ (mkSkeleton i info).purchaserRemark = ""
    ∧ (mkSkeleton i info).oqcDate = ""
    ∧ (mkSkeleton i info).isMaterialReady = false
    ∧ (mkSkeleton i info).model = info.model
    ∧ (mkSkeleton i info).vendor = info.vendor
    ∧ (mkSkeleton i info).stage = normalizeStage info.stage
    ∧ (mkSkeleton i info).productPartNumber = info.productPartNumber
    ∧ (mkSkeleton i info).productionDate = info.productionDate := by
  have hany : ts.any (fun r => r.workOrder == info.workOrder) = false := by
    rw [List.any_eq_false]
    intro r hr
    simp only [beq_iff_eq]
    exact fun hh => h ⟨r, hr, hh⟩
  have hstep : ∀ j : Nat, woStep ts (j, info) = ts ++ [mkSkeleton j info] := by
    intro j
    simp [woStep, hany]
  have hone : importWODetails ts [info] = woStep ts (0, info) := rfl
  exact ⟨hstep i, by rw [hone, hstep 0], rfl, rfl, rfl, rfl, rfl, rfl, rfl, rfl,
         rfl, rfl, rfl, rfl, rfl⟩

def c6Info : WODetailRecord :=
  { workOrder := "WO-1", model := "ModelA", vendor := "VendorX"
    stage := some "打件", productPartNumber := some "PP-1", productionDate := none }

/-- Witness for importWODetails_creates_skeleton on an empty collection. -/
theorem importWODetails_creates_skeleton_witness :
    (¬ ∃ r ∈ ([] : List TrackingRow), r.workOrder = c6Info.workOrder)
    ∧ importWODetails [] [c6Info] = [mkSkeleton 0 c6Info] :=
  ⟨by decide, (importWODetails_creates_skeleton [] 0 c6Info (by decide)).2.1⟩

/-! ## Claim C7: metadata merge by importWODetails -/

/-- Claim C7: a work-order-detail record whose work order matches
existing rows makes importWODetails rewrite every row through the
field-wise metadata merge: on rows of that work order each of model,
vendor, productPartNumber, productionDate and stage is overwritten only
when the record supplies a non-empty value and kept otherwise, all other
fields are untouched, and rows of other work orders are unchanged. -/
theorem importWODetails_partial_update (ts : List TrackingRow) (i : Nat)
    (info : WODetailRecord)
    (h : ∃ r ∈ ts, r.workOrder = info.workOrder) :
    woStep ts (i, info) = ts.map (applyWOMeta info)
    ∧ ∀ r : TrackingRow,
        (r.workOrder = info.workOrder →
          (applyWOMeta info r).model = (if info.model ≠ "" then info.model else r.model)
          ∧ (applyWOMeta info r).vendor = (if info.vendor ≠ "" then info.vendor else r.vendor)
          ∧ (applyWOMeta info r).productPartNumber =
              (if truthy info.productPartNumber then info.productPartNumber
               else r.productPartNumber)
          ∧ (applyWOMeta info r).productionDate =
              (if truthy info.productionDate then info.productionDate
               else r.productionDate)
          ∧ (applyWOMeta info r).stage =
              (if truthy info.stage then normalizeStage info.stage else r.stage)
          ∧ (applyWOMeta info r).id = r.id
          ∧ (applyWOMeta info r).workOrder = r.workOrder
          ∧ (applyWOMeta info r).partNumber = r.partNumber
          ∧ (applyWOMeta info r).partName = r.partName
          ∧ (applyWOMeta info r).specification = r.specification
          ∧ (applyWOMeta info r).supplier = r.supplier
          ∧ (applyWOMeta info r).shortageQty = r.shortageQty
          ∧ (applyWOMeta info r).oqcDate = r.oqcDate
          ∧ (applyWOMeta info r).isMaterialReady = r.isMaterialReady
          ∧ (applyWOMeta info r).purchaserReplyDate = r.purchaserReplyDate
          ∧ (applyWOMeta info r).purchaserRemark = r.purchaserRemark
          ∧ (applyWOMeta info r).status = r.status
          ∧ (applyWOMeta info r).purchaserUsername = r.purchaserUsername
          ∧ (applyWOMeta info r).isArchived = r.isArchived)
        ∧ (r.workOrder ≠ info.workOrder → applyWOMeta info r = r) := by
  obtain ⟨r0, hr0, hwo0⟩ := h
  have hany : ts.any (fun r => r.workOrder == info.workOrder) = true :=
    List.any_eq_true.mpr ⟨r0, hr0, beq_iff_eq.mpr hwo0⟩
  refine ⟨by simp [woStep, hany], fun r => ⟨fun hwo => ?_, fun hwo => ?_⟩⟩
  · simp [applyWOMeta, hwo, bne_iff_ne]
  · simp [applyWOMeta, hwo]

def c7Row : TrackingRow :=
  { id := "r1", model := "M1", workOrder := "WO-2", productPartNumber := some "PP"
    partNumber := "P-1", partName := "n", specification := "s", stage := "SMT"
    vendor := "V0", supplier := "sup", shortageQty := 4
    productionDate := some "2024-05-05", oqcDate := "", isMaterialReady := false
    purchaserReplyDate := "", purchaserRemark := "", status := Status.Pending
    purchaserUsername := "", isArchived := false }

def c7Info : WODetailRecord :=
  { workOrder := "WO-2", model := "", vendor := "V1", stage := none
    productPartNumber := none, productionDate := none }

/-- Witness for importWODetails_partial_update: a record supplying only
the vendor leaves model, productPartNumber and productionDate unchanged. -/
theorem importWODetails_partial_update_witness :
    (∃ r ∈ [c7Row], r.workOrder = c7Info.workOrder)
    ∧ woStep [c7Row] (0, c7Info) = [c7Row].map (applyWOMeta c7Info)
    ∧ (applyWOMeta c7Info c7Row).model = "M1"
    ∧ (applyWOMeta c7Info c7Row).vendor = "V1"
    ∧ (applyWOMeta c7Info c7Row).productPartNumber = some "PP"
    ∧ (applyWOMeta c7Info c7Row).productionDate = some "2024-05-05" := by
  refine ⟨⟨c7Row, by decide, by decide⟩,
          (importWODetails_partial_update [c7Row] 0 c7Info
            ⟨c7Row, by decide, by decide⟩).1, ?_, ?_, ?_, ?_⟩ <;> decide

/-! ## Claim C1: replace-policy import and the lost metadata snapshot -/

def c1Row : TrackingRow :=
  { id := "r0", model := "ModelM", workOrder := "W1", productPartNumber := some "PP"
    partNumber := "P0", partName := "", specification := "", stage := "Assembly"
    vendor := "VendorV", supplier := "", shortageQty := 2
    productionDate := some "2024-01-01", oqcDate := "", isMaterialReady := false
    purchaserReplyDate := "", purchaserRemark := "", status := Status.Pending
    purchaserUsername := "", isArchived := false }

def c1Rec : ERPRecord :=
  { model := "", workOrder := "W1", partNumber := "P1", partName := "PN"
    specification := "S", supplier := "Sup", shortageQty := 3
    requiredDate := "", uploadBatch := "" }

/-- Claim C1 failing input: the replace-policy import deletes the rows
of the target work orders (line 137) before the metadata snapshot of
lines 160-173 is taken, so the snapshot is always empty and the
recreated row carries the documented defaults instead of the metadata
of the first pre-import row: here model Unknown, vendor empty and stage
SMT instead of ModelM, VendorV and Assembly. -/
theorem importShortages_replace_loses_metadata :
    (importShortages [c1Row] [c1Rec] ImportMode.replace).map
        (fun r => (r.workOrder, r.partNumber, r.model, r.vendor, r.stage))
      = [("W1", "P1", "Unknown", "", "SMT")]
    ∧ c1Row.model = "ModelM" ∧ c1Row.vendor = "VendorV" ∧ c1Row.stage = "Assembly" := by
  refine ⟨by decide, rfl, rfl, rfl⟩

/-! ## Claim C3: zero quantity and the Ready status -/

def c3Rec : ERPRecord :=
  { model := "M", workOrder := "W3", partNumber := "P3", partName := ""
    specification := "", supplier := "", shortageQty := 0
    requiredDate := "", uploadBatch := "" }

/-- Claim C3 counterexample: a replace-policy import of a record with
zero quantity creates its row with shortageQty zero but status Pending,
not Ready (line 198 stamps Pending unconditionally). -/
theorem importShortages_zero_qty_pending :
    (importShortages [] [c3Rec] ImportMode.replace).map
        (fun r => (r.shortageQty, r.status))
      = [((0 : Int), Status.Pending)]
    ∧ Status.Pending ≠ Status.Ready :=
  ⟨by decide, by decide⟩

/-- Claim C3 (amended): a row updated in place by a merge-policy import
whose new quantity is zero gets status Ready, and a row reset by the
resolution sweep gets quantity zero and status Ready; but a row newly
created by either policy is stamped Pending whatever its quantity, so
the zero-implies-Ready rule holds only for recomputed rows, not for
freshly inserted ones. -/
theorem import_zero_qty_resolution (d : ERPRecord) (r : TrackingRow)
    (wos inKeys : List String) (sib : Option TrackingRow) (i : Nat)
    (tsMeta : List TrackingRow)
    (h0 : (updateShortage d r).shortageQty = 0) :
    (updateShortage d r).status = Status.Ready
    ∧ (r.workOrder ∈ wos →
        rowKey r ∉ inKeys →
        r.partNumber ≠ "WO_INFO_ONLY" →
        (sweepRow wos inKeys r).shortageQty = 0
        ∧ (sweepRow wos inKeys r).status = Status.Ready)
    ∧ (mkMergeRow sib i d).status = Status.Pending
    ∧ (mkReplaceRow tsMeta i d).status = Status.Pending := by
  refine ⟨?_, ?_, rfl, rfl⟩
  · have hq : d.shortageQty = 0 := h0
    simp [updateShortage, hq]
  · intro hwo hk hpn
    simp [sweepRow, hwo, hk, hpn]

def c3UpdRec : ERPRecord :=
  { model := "", workOrder := "W3", partNumber := "P4", partName := ""
    specification := "", supplier := "", shortageQty := 0
    requiredDate := "", uploadBatch := "" }

def c3Row : TrackingRow :=
  { id := "r3", model := "M", workOrder := "W3", productPartNumber := none
    partNumber := "P4", partName := "", specification := "", stage := "SMT"
    vendor := "", supplier := "", shortageQty := 5, productionDate := none
    oqcDate := "", isMaterialReady := false, purchaserReplyDate := "2024-02-02"
    purchaserRemark := "rm", status := Status.Confirmed
    purchaserUsername := "", isArchived := false }

/-- Witness for import_zero_qty_resolution at a concrete update. -/
theorem import_zero_qty_resolution_witness :
    (updateShortage c3UpdRec c3Row).shortageQty = 0
    ∧ (updateShortage c3UpdRec c3Row).status = Status.Ready :=
  ⟨by decide,
   (import_zero_qty_resolution c3UpdRec c3Row [] [] none 0 [] (by decide)).1⟩

/-! ## List infrastructure for the merge-mode proofs -/

lemma key_eq_of_pair_eq {r : TrackingRow} {d : ERPRecord}
    (h : rowPair r = recPair d) : rowKey r = recKey d := by
  have h1 := congrArg Prod.fst h
  have h2 := congrArg Prod.snd h
  simp only [rowPair, recPair] at h1 h2
  simp only [rowKey, recKey, h1, h2]

lemma rowKey_eq_of_rowPair_eq {r1 r2 : TrackingRow}
    (h : rowPair r1 = rowPair r2) : rowKey r1 = rowKey r2 := by
  have h1 := congrArg Prod.fst h
  have h2 := congrArg Prod.snd h
  simp only [rowPair] at h1 h2
  simp only [rowKey, h1, h2]

lemma withIdx_map_val {α β : Type _} (g : α → β) :
    ∀ (l : List α) (n : Nat), (withIdx n l).map (fun p => g p.2) = l.map g := by
  intro l
  induction l with
  | nil => intro n; rfl
  | cons a as ih => intro n; simp [withIdx, ih]

lemma withIdx_append {α : Type _} (l1 l2 : List α) : ∀ n,
    withIdx n (l1 ++ l2) = withIdx n l1 ++ withIdx (n + l1.length) l2 := by
  induction l1 with
  | nil => intro n; simp [withIdx]
  | cons a as ih =>
    intro n
    have h1 : withIdx n ((a :: as) ++ l2) = (n, a) :: withIdx (n + 1) (as ++ l2) := rfl
    rw [h1, ih (n + 1)]
    have harith : n + 1 + as.length = n + (a :: as).length := by
      simp only [List.length_cons]
      omega
    rw [harith]
    rfl

lemma mem_withIdx_snd {α : Type _} {q : Nat × α} :
    ∀ {l : List α} {n : Nat}, q ∈ withIdx n l → q.2 ∈ l := by
  intro l
  induction l with
  | nil => intro n h; simp [withIdx] at h
  | cons a as ih =>
    intro n h
    rcases List.mem_cons.mp h with h1 | h1
    · rw [h1]; exact List.mem_cons_self _ _
    · exact List.mem_cons_of_mem _ (ih h1)

lemma updateLast_map {γ : Type _} (p : TrackingRow → Bool)
    (f : TrackingRow → TrackingRow) (g : TrackingRow → γ)
    (hg : ∀ r, p r = true → g (f r) = g r) :
    ∀ l, (updateLast p f l).map g = l.map g := by
  intro l
  induction l with
  | nil => rfl
  | cons r rs ih =>
    unfold updateLast
    split
    · simp only [List.map_cons, ih]
    · split
      · rename_i hp
        simp only [List.map_cons, hg r hp]
      · simp only [List.map_cons, ih]

lemma mem_updateLast (p : TrackingRow → Bool) (f : TrackingRow → TrackingRow) :
    ∀ (l : List TrackingRow), ∀ r ∈ updateLast p f l,
      r ∈ l ∨ ∃ r0 ∈ l, r = f r0 := by
  intro l
  induction l with
  | nil => intro r hr; simp [updateLast] at hr
  | cons x xs ih =>
    intro r hr
    unfold updateLast at hr
    split at hr
    · rcases List.mem_cons.mp hr with h | h
      · exact Or.inl (h ▸ List.mem_cons_self _ _)
      · rcases ih r h with h2 | h2
        · exact Or.inl (List.mem_cons_of_mem _ h2)
        · obtain ⟨r0, hr0, he⟩ := h2
          exact Or.inr ⟨r0, List.mem_cons_of_mem _ hr0, he⟩
    · split at hr
      · rcases List.mem_cons.mp hr with h | h
        · exact Or.inr ⟨x, List.mem_cons_self _ _, h⟩
        · exact Or.inl (List.mem_cons_of_mem _ h)
      · rcases List.mem_cons.mp hr with h | h
        · exact Or.inl (h ▸ List.mem_cons_self _ _)
        · rcases ih r h with h2 | h2
          · exact Or.inl (List.mem_cons_of_mem _ h2)
          · obtain ⟨r0, hr0, he⟩ := h2
            exact Or.inr ⟨r0, List.mem_cons_of_mem _ hr0, he⟩

lemma updateLast_get?_of_neg (p : TrackingRow → Bool) (f : TrackingRow → TrackingRow) :
    ∀ (l : List TrackingRow) (i : Nat) (r : TrackingRow),
      l.get? i = some r → p r = false →
      (updateLast p f l).get? i = some r := by
  intro l
  induction l with
  | nil => intro i r hi _; simp at hi
  | cons x xs ih =>
    intro i r hi hp
    unfold updateLast
    cases i with
    | zero =>
      have hx : x = r := Option.some.inj hi
      split
      · exact congrArg some hx
      · split
        · rename_i hpx
          rw [hx] at hpx
          rw [hpx] at hp
          exact absurd hp (by simp)
        · exact congrArg some hx
    | succ n =>
      have hi2 : xs.get? n = some r := hi
      split
      · exact ih n r hi2 hp
      · split
        · exact hi2
        · exact ih n r hi2 hp

lemma updateLast_get?_unique (p : TrackingRow → Bool) (f : TrackingRow → TrackingRow) :
    ∀ (l : List TrackingRow) (i : Nat) (r : TrackingRow),
      l.get? i = some r → p r = true →
      (∀ j r2, l.get? j = some r2 → p r2 = true → j = i) →
      (updateLast p f l).get? i = some (f r) := by
  intro l
  induction l with
  | nil => intro i r hi _ _; simp at hi
  | cons x xs ih =>
    intro i r hi hp huniq
    unfold updateLast
    split
    · rename_i hany
      obtain ⟨y, hy, hpy⟩ := List.any_eq_true.mp hany
      obtain ⟨j, hj⟩ := List.get?_of_mem hy
      have hji : j + 1 = i := huniq (j + 1) y hj hpy
      cases i with
      | zero => exact absurd hji (by omega)
      | succ n =>
        have hi2 : xs.get? n = some r := hi
        refine ih n r hi2 hp ?_
        intro j2 r2 hj2 hp2
        have := huniq (j2 + 1) r2 hj2 hp2
        omega
    · rename_i hany
      split
      · rename_i hpx
        cases i with
        | zero =>
          have hx : x = r := Option.some.inj hi
          exact congrArg some (congrArg f hx)
        | succ n =>
          exfalso
          have hi2 : xs.get? n = some r := hi
          have : xs.any p = true :=
            List.any_eq_true.mpr ⟨r, List.get?_mem hi2, hp⟩
          exact hany this
      · rename_i hpx
        exfalso
        cases i with
        | zero =>
          have hx : x = r := Option.some.inj hi
          rw [hx] at hpx
          exact hpx hp
        | succ n =>
          have hi2 : xs.get? n = some r := hi
          have : xs.any p = true :=
            List.any_eq_true.mpr ⟨r, List.get?_mem hi2, hp⟩
          exact hany this

lemma nodup_get?_inj {α : Type _} :
    ∀ (l : List α), l.Nodup →
      ∀ (i j : Nat) (k : α), l.get? i = some k → l.get? j = some k → i = j := by
  intro l
  induction l with
  | nil => intro _ i j k h; simp at h
  | cons a as ih =>
    intro hnd i j k hi hj
    match i, j with
    | 0, 0 => rfl
    | 0, j + 1 =>
      exfalso
      have ha : a = k := Option.some.inj hi
      have hk : k ∈ as := List.get?_mem hj
      exact (List.nodup_cons.mp hnd).1 (ha ▸ hk)
    | i + 1, 0 =>
      exfalso
      have ha : a = k := Option.some.inj hj
      have hk : k ∈ as := List.get?_mem hi
      exact (List.nodup_cons.mp hnd).1 (ha ▸ hk)
    | i + 1, j + 1 =>
      have := ih (List.nodup_cons.mp hnd).2 i j k hi hj
      omega

lemma get?_append_nodup_unique {α : Type _} (A B : List α) (k : α)
    (hA : A.Nodup) (hkB : k ∉ B) :
    ∀ i j, (A ++ B).get? i = some k → (A ++ B).get? j = some k → i = j := by
  intro i j hi hj
  have hlti : i < A.length := by
    by_contra hge
    push_neg at hge
    rw [List.get?_append_right hge] at hi
    exact hkB (List.get?_mem hi)
  have hltj : j < A.length := by
    by_contra hge
    push_neg at hge
    rw [List.get?_append_right hge] at hj
    exact hkB (List.get?_mem hj)
  rw [List.get?_append hlti] at hi
  rw [List.get?_append hltj] at hj
  exact nodup_get?_inj A hA i j k hi hj

lemma mergeStep_eq_update (orig cur : List TrackingRow) (q : Nat × ERPRecord)
    (hb : (orig.any fun r => rowKey r == recKey q.2) = true) :
    mergeStep orig cur q
      = updateLast (fun r => rowKey r == recKey q.2) (updateShortage q.2) cur := by
  simp only [mergeStep]
  rw [if_pos hb]

lemma mergeStep_eq_push (orig cur : List TrackingRow) (q : Nat × ERPRecord)
    (hb : ¬ (orig.any fun r => rowKey r == recKey q.2) = true) :
    mergeStep orig cur q
      = cur ++ [mkMergeRow (cur.find? (fun r => r.workOrder == q.2.workOrder)) q.1 q.2] := by
  simp only [mergeStep]
  rw [if_neg hb]

lemma mergeFold_get?_of_fresh (orig : List TrackingRow) :
    ∀ (l : List (Nat × ERPRecord)) (cur : List TrackingRow) (i : Nat) (r : TrackingRow),
      cur.get? i = some r →
      (∀ q ∈ l, recKey q.2 ≠ rowKey r) →
      (l.foldl (mergeStep orig) cur).get? i = some r := by
  intro l
  induction l with
  | nil => intro cur i r hi _; exact hi
  | cons q qs ih =>
    intro cur i r hi hk
    simp only [List.foldl_cons]
    refine ih _ i r ?_ (fun q2 hq2 => hk q2 (List.mem_cons_of_mem _ hq2))
    by_cases hb : (orig.any fun r => rowKey r == recKey q.2) = true
    · rw [mergeStep_eq_update orig cur q hb]
      refine updateLast_get?_of_neg _ _ cur i r hi ?_
      have hne : rowKey r ≠ recKey q.2 :=
        fun hh => hk q (List.mem_cons_self _ _) hh.symm
      simp only [beq_eq_false_iff_ne, ne_eq]
      exact hne
    · rw [mergeStep_eq_push orig cur q hb]
      have hlt : i < cur.length := (List.get?_eq_some.mp hi).1
      rw [List.get?_append hlt]
      exact hi

lemma mergeFold_keys_shape (orig : List TrackingRow) :
    ∀ (l : List (Nat × ERPRecord)) (cur : List TrackingRow) (ext : List String),
      cur.map rowKey = orig.map rowKey ++ ext →
      (∀ k ∈ ext, k ∉ orig.map rowKey) →
      ∃ ext2, (l.foldl (mergeStep orig) cur).map rowKey = orig.map rowKey ++ ext2
        ∧ ∀ k ∈ ext2, k ∉ orig.map rowKey := by
  intro l
  induction l with
  | nil => intro cur ext hshape hext; exact ⟨ext, hshape, hext⟩
  | cons q qs ih =>
    intro cur ext hshape hext
    simp only [List.foldl_cons]
    by_cases hb : (orig.any fun r => rowKey r == recKey q.2) = true
    · rw [mergeStep_eq_update orig cur q hb]
      refine ih _ ext ?_ hext
      rw [updateLast_map (fun r => rowKey r == recKey q.2) (updateShortage q.2)
            rowKey (fun r _ => rfl)]
      exact hshape
    · rw [mergeStep_eq_push orig cur q hb]
      have hno := hb
      refine ih _ (ext ++ [recKey q.2]) ?_ ?_
      · rw [List.map_append, hshape, List.append_assoc]
        rfl
      · intro k hk2
        rcases List.mem_append.mp hk2 with h | h
        · exact hext k h
        · have hkq : k = recKey q.2 := by simpa using h
          subst hkq
          intro hmem
          obtain ⟨r0, hr0, hkey0⟩ := List.mem_map.mp hmem
          exact hno (List.any_eq_true.mpr ⟨r0, hr0, beq_iff_eq.mpr hkey0⟩)

lemma sweepRow_rowPair (wos inKeys : List String) (r : TrackingRow) :
    rowPair (sweepRow wos inKeys r) = rowPair r := by
  unfold sweepRow
  split
  · split <;> rfl
  · rfl

lemma sweepRow_of_key_mem (wos inKeys : List String) (r : TrackingRow)
    (h : rowKey r ∈ inKeys) : sweepRow wos inKeys r = r := by
  unfold sweepRow
  split
  · have hc : inKeys.contains (rowKey r) = true := by
      rw [List.contains_eq_any_beq]
      exact List.any_eq_true.mpr ⟨rowKey r, h, by simp⟩
    rw [hc]
    simp
  · rfl

lemma map_rowPair_of_pointwise (ts : List TrackingRow) (g : TrackingRow → TrackingRow)
    (hg : ∀ r, rowPair (g r) = rowPair r) :
    (ts.map g).map rowPair = ts.map rowPair := by
  rw [List.map_map]
  exact List.map_congr_left (fun r _ => hg r)

lemma updateFirst_map_rowPair (p : TrackingRow → Bool) (f : TrackingRow → TrackingRow)
    (hf : ∀ r, rowPair (f r) = rowPair r) :
    ∀ l, (updateFirst p f l).map rowPair = l.map rowPair := by
  intro l
  induction l with
  | nil => rfl
  | cons r rs ih =>
    unfold updateFirst
    split
    · simp only [List.map_cons, hf r]
    · simp only [List.map_cons, ih]

/-! ## Claim C4: the merge-mode resolution sweep -/

def c4Row : TrackingRow :=
  { id := "c4", model := "M", workOrder := "A", productPartNumber := none
    partNumber := "B-C", partName := "", specification := "", stage := "SMT"
    vendor := "", supplier := "", shortageQty := 7, productionDate := none
    oqcDate := "", isMaterialReady := false, purchaserReplyDate := ""
    purchaserRemark := "", status := Status.Pending, purchaserUsername := ""
    isArchived := false }

def c4Rec1 : ERPRecord :=
  { model := "", workOrder := "A-B", partNumber := "C", partName := ""
    specification := "", supplier := "", shortageQty := 5
    requiredDate := "", uploadBatch := "" }

def c4Rec2 : ERPRecord :=
  { model := "", workOrder := "A", partNumber := "X", partName := ""
    specification := "", supplier := "", shortageQty := 1
    requiredDate := "", uploadBatch := "" }

/-- Claim C4 counterexample: the sweep keys rows by the concatenated
string workOrder-partNumber, so the row (A, B-C), whose pair is absent
from the batch, collides with the incoming record (A-B, C) and is not
reset: its quantity ends at 5 with status Pending although its work
order A appears in the batch and its partNumber is not the sentinel. -/
theorem merge_sweep_delimiter_collision :
    c4Row.workOrder ∈ targetWOs [c4Rec1, c4Rec2]
    ∧ c4Row.partNumber ≠ "WO_INFO_ONLY"
    ∧ recPair c4Rec1 ≠ rowPair c4Row
    ∧ recPair c4Rec2 ≠ rowPair c4Row
    ∧ (importShortages [c4Row] [c4Rec1, c4Rec2] ImportMode.merge).map
        (fun r => (r.partNumber, r.shortageQty, r.status))
      = [("B-C", 5, Status.Pending), ("X", 1, Status.Pending)] := by
  decide

/-- Claim C4 (amended): for every existing row whose workOrder appears
in the incoming batch, whose partNumber is not the sentinel WO_INFO_ONLY
and whose concatenated key workOrder-partNumber is absent from the
concatenated keys of the batch, the merge-policy import leaves the row
in place with shortageQty forced to 0 and status forced to Ready. -/
theorem merge_resolution_sweep (ts : List TrackingRow) (data : List ERPRecord)
    (i : Nat) (r : TrackingRow)
    (hi : ts.get? i = some r)
    (hwo : r.workOrder ∈ targetWOs data)
    (hpn : r.partNumber ≠ "WO_INFO_ONLY")
    (hk : rowKey r ∉ data.map recKey) :
    (importShortages ts data ImportMode.merge).get? i
      = some { r with shortageQty := 0, status := Status.Ready } := by
  show (importShortagesMerge ts data).get? i = _
  simp only [importShortagesMerge]
  rw [List.get?_map]
  have hfold : ((withIdx 0 data).foldl (mergeStep ts) ts).get? i = some r := by
    refine mergeFold_get?_of_fresh ts (withIdx 0 data) ts i r hi ?_
    intro q hq he
    apply hk
    have hm : recKey q.2 ∈ data.map recKey :=
      List.mem_map.mpr ⟨q.2, mem_withIdx_snd hq, rfl⟩
    rw [he] at hm
    exact hm
  rw [hfold]
  simp only [Option.map_some']
  congr 1
  unfold sweepRow
  have hcwo : (targetWOs data).contains r.workOrder = true := by
    rw [List.contains_eq_any_beq]
    exact List.any_eq_true.mpr ⟨r.workOrder, hwo, by simp⟩
  have hck : (data.map recKey).contains (rowKey r) = false := by
    rw [List.contains_eq_any_beq]
    rw [List.any_eq_false]
    intro x hx
    simp only [beq_iff_eq]
    exact fun hh => hk (hh ▸ hx)
  rw [hcwo, hck]
  simp [hpn]

def c4wRow : TrackingRow :=
  { id := "c4w", model := "M", workOrder := "W4", productPartNumber := none
    partNumber := "PX", partName := "", specification := "", stage := "SMT"
    vendor := "", supplier := "", shortageQty := 9, productionDate := none
    oqcDate := "", isMaterialReady := true, purchaserReplyDate := "2024-03-03"
    purchaserRemark := "keep", status := Status.Confirmed
    purchaserUsername := "", isArchived := false }

def c4wRec : ERPRecord :=
  { model := "", workOrder := "W4", partNumber := "PY", partName := ""
    specification := "", supplier := "", shortageQty := 2
    requiredDate := "", uploadBatch := "" }

/-- Witness for merge_resolution_sweep: a previously shorted row absent
from the batch ends resolved. -/
theorem merge_resolution_sweep_witness :
    c4wRow.workOrder ∈ targetWOs [c4wRec]
    ∧ rowKey c4wRow ∉ [c4wRec].map recKey
    ∧ (importShortages [c4wRow] [c4wRec] ImportMode.merge).get? 0
        = some { c4wRow with shortageQty := 0, status := Status.Ready } :=
  ⟨by decide, by decide,
   merge_resolution_sweep [c4wRow] [c4wRec] 0 c4wRow (by decide) (by decide)
     (by decide) (by decide)⟩

/-! ## Claim C5: merge-mode frame property for key-matched rows -/

def c5xRow1 : TrackingRow :=
  { id := "c5x1", model := "M", workOrder := "A-B", productPartNumber := none
    partNumber := "C", partName := "", specification := "", stage := "SMT"
    vendor := "", supplier := "", shortageQty := 10, productionDate := none
    oqcDate := "", isMaterialReady := false, purchaserReplyDate := ""
    purchaserRemark := "", status := Status.Pending, purchaserUsername := ""
    isArchived := false }

def c5xRow2 : TrackingRow :=
  { id := "c5x2", model := "M", workOrder := "A", productPartNumber := none
    partNumber := "B-C", partName := "", specification := "", stage := "SMT"
    vendor := "", supplier := "", shortageQty := 20, productionDate := none
    oqcDate := "", isMaterialReady := false, purchaserReplyDate := ""
    purchaserRemark := "", status := Status.Pending, purchaserUsername := ""
    isArchived := false }

def c5xRec : ERPRecord :=
  { model := "", workOrder := "A-B", partNumber := "C", partName := ""
    specification := "", supplier := "", shortageQty := 7
    requiredDate := "", uploadBatch := "" }

/-- Claim C5 counterexample: rows are matched through the string key
workOrder-partNumber, and the map keeps the last row per key, so in the
pair-unique state [(A-B, C, qty 10), (A, B-C, qty 20)] the incoming
record (A-B, C, qty 7) updates the colliding row (A, B-C) instead of
the row (A-B, C) whose (workOrder, partNumber) pair it matches: that
row keeps quantity 10, refuting the claim as stated. -/
theorem merge_update_delimiter_collision :
    ([c5xRow1, c5xRow2].map rowPair).Nodup
    ∧ recPair c5xRec = rowPair c5xRow1
    ∧ recPair c5xRec ≠ rowPair c5xRow2
    ∧ (importShortages [c5xRow1, c5xRow2] [c5xRec] ImportMode.merge).map
        (fun r => (r.workOrder, r.partNumber, r.shortageQty))
      = [("A-B", "C", 10), ("A", "B-C", 7)]
    ∧ (10 : Int) ≠ c5xRec.shortageQty := by
  refine ⟨by decide, by decide, by decide, by decide, by decide⟩

/-- Claim C5 (amended): matching is by the concatenated string key
workOrder-partNumber, not by the pair, and is well defined only when
those keys are duplicate-free in the live rows and in the batch; under
those hypotheses the key-matched row is updated in place to carry the
incoming quantity, its status is forced to Ready exactly when that
quantity is zero and kept otherwise, and every other field
(purchaserReplyDate, purchaserRemark, isMaterialReady, oqcDate and the
rest) is unchanged, as expressed by the record-update equation. -/
theorem merge_updates_only_quantity (ts : List TrackingRow) (data : List ERPRecord)
    (i : Nat) (r : TrackingRow) (d : ERPRecord)
    (hts : (ts.map rowKey).Nodup)
    (hdata : (data.map recKey).Nodup)
    (hi : ts.get? i = some r)
    (hd : d ∈ data)
    (hkey : rowKey r = recKey d) :
    (importShortages ts data ImportMode.merge).get? i
      = some { r with
               shortageQty := d.shortageQty
               status := if d.shortageQty = 0 then Status.Ready else r.status } := by
  obtain ⟨pre, post, hdec⟩ := List.append_of_mem hd
  subst hdec
  have hkeys : (pre.map recKey ++ recKey d :: post.map recKey).Nodup := by
    simpa using hdata
  have hdpre : recKey d ∉ pre.map recKey := by
    rcases List.nodup_append.mp hkeys with ⟨h1, h2, hdisj⟩
    intro hmem
    exact hdisj hmem (List.mem_cons_self _ _)
  have hdpost : recKey d ∉ post.map recKey := by
    rcases List.nodup_append.mp hkeys with ⟨h1, h2, hdisj⟩
    exact (List.nodup_cons.mp h2).1
  have hidx : withIdx 0 (pre ++ d :: post)
      = withIdx 0 pre ++ (0 + pre.length, d) :: withIdx (0 + pre.length + 1) post := by
    rw [withIdx_append]
    rfl
  show (importShortagesMerge ts (pre ++ d :: post)).get? i = _
  simp only [importShortagesMerge]
  rw [List.get?_map, hidx, List.foldl_append, List.foldl_cons]
  set cur1 := (withIdx 0 pre).foldl (mergeStep ts) ts with hcur1
  have h1 : cur1.get? i = some r := by
    refine mergeFold_get?_of_fresh ts (withIdx 0 pre) ts i r hi ?_
    intro q hq he
    apply hdpre
    have hm : recKey q.2 ∈ pre.map recKey :=
      List.mem_map.mpr ⟨q.2, mem_withIdx_snd hq, rfl⟩
    rw [he, hkey] at hm
    exact hm
  obtain ⟨ext1, hshape, hext⟩ :=
    mergeFold_keys_shape ts (withIdx 0 pre) ts [] (by simp) (by simp)
  rw [← hcur1] at hshape
  have hb : (ts.any fun r2 => rowKey r2 == recKey d) = true :=
    List.any_eq_true.mpr ⟨r, List.get?_mem hi, beq_iff_eq.mpr hkey⟩
  rw [mergeStep_eq_update ts cur1 (0 + pre.length, d) hb]
  have hpr : (fun r2 => rowKey r2 == recKey d) r = true := beq_iff_eq.mpr hkey
  have hlti : i < ts.length := (List.get?_eq_some.mp hi).1
  have hlti2 : i < (ts.map rowKey).length := by
    rw [List.length_map]; exact hlti
  have hKi : (ts.map rowKey ++ ext1).get? i = some (rowKey r) := by
    rw [List.get?_append hlti2, List.get?_map, hi]
    rfl
  have hrmem : rowKey r ∈ ts.map rowKey :=
    List.mem_map.mpr ⟨r, List.get?_mem hi, rfl⟩
  have hrext : rowKey r ∉ ext1 := fun hmem => hext _ hmem hrmem
  have huniq : ∀ j r2, cur1.get? j = some r2 →
      (fun r3 => rowKey r3 == recKey d) r2 = true → j = i := by
    intro j r2 hj hp2
    have hkr2 : rowKey r2 = recKey d := beq_iff_eq.mp hp2
    have hKj : (ts.map rowKey ++ ext1).get? j = some (rowKey r) := by
      rw [← hshape, List.get?_map, hj]
      simp only [Option.map_some']
      rw [hkr2, ← hkey]
    exact get?_append_nodup_unique (ts.map rowKey) ext1 (rowKey r) hts hrext j i hKj hKi
  have h2 : (updateLast (fun r2 => rowKey r2 == recKey d) (updateShortage d) cur1).get? i
      = some (updateShortage d r) :=
    updateLast_get?_unique _ _ cur1 i r h1 hpr huniq
  have h3 : ((withIdx (0 + pre.length + 1) post).foldl (mergeStep ts)
      (updateLast (fun r2 => rowKey r2 == recKey d) (updateShortage d) cur1)).get? i
      = some (updateShortage d r) := by
    refine mergeFold_get?_of_fresh ts _ _ i _ h2 ?_
    intro q hq he
    apply hdpost
    have hm : recKey q.2 ∈ post.map recKey :=
      List.mem_map.mpr ⟨q.2, mem_withIdx_snd hq, rfl⟩
    have hkupd : rowKey (updateShortage d r) = rowKey r := rfl
    rw [he, hkupd, hkey] at hm
    exact hm
  rw [h3]
  simp only [Option.map_some']
  rw [sweepRow_of_key_mem]
  · rfl
  · have hqmem : d ∈ pre ++ d :: post := by simp
    have : rowKey (updateShortage d r) = recKey d := hkey
    rw [this]
    exact List.mem_map.mpr ⟨d, hqmem, rfl⟩

def c5Row : TrackingRow :=
  { id := "c5", model := "M5", workOrder := "W5", productPartNumber := some "PP5"
    partNumber := "P5", partName := "n5", specification := "s5", stage := "Assembly"
    vendor := "V5", supplier := "sup5", shortageQty := 3
    productionDate := some "2024-04-04", oqcDate := "2024-06-06"
    isMaterialReady := true, purchaserReplyDate := "2024-05-05"
    purchaserRemark := "note", status := Status.Confirmed
    purchaserUsername := "buyer", isArchived := false }

def c5Rec : ERPRecord :=
  { model := "ignored", workOrder := "W5", partNumber := "P5", partName := "x"
    specification := "y", supplier := "z", shortageQty := 7
    requiredDate := "", uploadBatch := "" }

/-- Witness for merge_updates_only_quantity: the matched row keeps its
purchaser fields and takes the new quantity. -/
theorem merge_updates_only_quantity_witness :
    ([c5Row].map rowKey).Nodup
    ∧ ([c5Rec].map recKey).Nodup
    ∧ (importShortages [c5Row] [c5Rec] ImportMode.merge).get? 0
        = some { c5Row with
                 shortageQty := c5Rec.shortageQty
                 status := if c5Rec.shortageQty = 0 then Status.Ready
                           else c5Row.status } :=
  ⟨by decide, by decide,
   merge_updates_only_quantity [c5Row] [c5Rec] 0 c5Row c5Rec (by decide) (by decide)
     (by decide) (by decide) (by decide)⟩

/-! ## Claim C2: uniqueness of the composite identity -/

def c2DupRec : ERPRecord :=
  { model := "", workOrder := "W", partNumber := "P", partName := ""
    specification := "", supplier := "", shortageQty := 1
    requiredDate := "", uploadBatch := "" }

/-- Claim C2 counterexample: the merge-mode key map is built once over
the pre-import rows and never extended as new rows are appended, so a
batch carrying the same (workOrder, partNumber) twice inserts two rows
with the same pair into an initially empty (hence unique) collection. -/
theorem merge_duplicate_batch_breaks_uniqueness :
    (([] : List TrackingRow).map rowPair).Nodup
    ∧ ¬ ((importShortagesMerge [] [c2DupRec, c2DupRec]).map rowPair).Nodup :=
  ⟨by decide, by decide⟩

lemma updateFirst_pair_nodup (p : TrackingRow → Bool) (f : TrackingRow → TrackingRow)
    (hf : ∀ r, rowPair (f r) = rowPair r) (l : List TrackingRow)
    (h : (l.map rowPair).Nodup) : ((updateFirst p f l).map rowPair).Nodup := by
  rw [updateFirst_map_rowPair p f hf]
  exact h

lemma map_pair_nodup_of_pointwise (g : TrackingRow → TrackingRow)
    (hg : ∀ r, rowPair (g r) = rowPair r) (l : List TrackingRow)
    (h : (l.map rowPair).Nodup) : ((l.map g).map rowPair).Nodup := by
  rw [map_rowPair_of_pointwise l g hg]
  exact h

lemma mergeFold_pair_nodup (orig : List TrackingRow) :
    ∀ (l : List (Nat × ERPRecord)) (cur : List TrackingRow),
      (cur.map rowPair).Nodup →
      ((l.map (fun q => recPair q.2)).Nodup) →
      (∀ r ∈ cur, rowKey r ∈ orig.map rowKey ∨ rowPair r ∉ l.map (fun q => recPair q.2)) →
      ((l.foldl (mergeStep orig) cur).map rowPair).Nodup := by
  intro l
  induction l with
  | nil => intro cur hcur _ _; exact hcur
  | cons q qs ih =>
    intro cur hcur hl hinv
    simp only [List.foldl_cons]
    have hl2 := hl
    simp only [List.map_cons] at hl2
    have hltail : ((qs.map (fun q2 => recPair q2.2)).Nodup) := (List.nodup_cons.mp hl2).2
    have hqtail : recPair q.2 ∉ qs.map (fun q2 => recPair q2.2) := (List.nodup_cons.mp hl2).1
    by_cases hb : (orig.any fun r => rowKey r == recKey q.2) = true
    · rw [mergeStep_eq_update orig cur q hb]
      refine ih _ ?_ hltail ?_
      · rw [updateLast_map (fun r => rowKey r == recKey q.2) (updateShortage q.2)
              rowPair (fun r _ => rfl)]
        exact hcur
      · intro r hr
        rcases mem_updateLast _ _ cur r hr with hmem | hmem
        · rcases hinv r hmem with h1 | h1
          · exact Or.inl h1
          · refine Or.inr (fun hc => h1 ?_)
            simp only [List.map_cons]
            exact List.mem_cons_of_mem _ hc
        · obtain ⟨r0, hr0, he⟩ := hmem
          subst he
          rcases hinv r0 hr0 with h1 | h1
          · exact Or.inl h1
          · refine Or.inr (fun hc => h1 ?_)
            simp only [List.map_cons]
            exact List.mem_cons_of_mem _ hc
    · rw [mergeStep_eq_push orig cur q hb]
      have hnotin : rowPair (mkMergeRow
            (cur.find? (fun r => r.workOrder == q.2.workOrder)) q.1 q.2)
          ∉ cur.map rowPair := by
        intro hmem
        obtain ⟨r0, hr0, hpe⟩ := List.mem_map.mp hmem
        have hp0 : rowPair r0 = recPair q.2 := hpe
        have hk0 : rowKey r0 = recKey q.2 := key_eq_of_pair_eq hp0
        rcases hinv r0 hr0 with h1 | h1
        · obtain ⟨r1, hr1, hke⟩ := List.mem_map.mp h1
          exact hb (List.any_eq_true.mpr ⟨r1, hr1, beq_iff_eq.mpr (hke.trans hk0)⟩)
        · apply h1
          simp only [List.map_cons]
          rw [hp0]
          exact List.mem_cons_self _ _
      refine ih _ ?_ hltail ?_
      · rw [List.map_append, List.nodup_append]
        refine ⟨hcur, List.nodup_singleton _, ?_⟩
        intro a ha hb2
        simp only [List.map_cons, List.map_nil, List.mem_singleton] at hb2
        rw [hb2] at ha
        exact hnotin ha
      · intro r hr
        rcases List.mem_append.mp hr with hmem | hmem
        · rcases hinv r hmem with h1 | h1
          · exact Or.inl h1
          · refine Or.inr (fun hc => h1 ?_)
            simp only [List.map_cons]
            exact List.mem_cons_of_mem _ hc
        · simp only [List.mem_singleton] at hmem
          subst hmem
          refine Or.inr ?_
          have hpp : rowPair (mkMergeRow
              (cur.find? (fun r2 => r2.workOrder == q.2.workOrder)) q.1 q.2)
              = recPair q.2 := rfl
          rw [hpp]
          exact hqtail

lemma woFold_pair_nodup :
    ∀ (l : List (Nat × WODetailRecord)) (ts : List TrackingRow),
      (ts.map rowPair).Nodup → (((l.foldl woStep ts)).map rowPair).Nodup := by
  intro l
  induction l with
  | nil => intro ts h; exact h
  | cons q qs ih =>
    intro ts h
    simp only [List.foldl_cons]
    refine ih _ ?_
    by_cases hb : (ts.any fun r => r.workOrder == q.2.workOrder) = true
    · have hstep : woStep ts q = ts.map (applyWOMeta q.2) := by
        simp only [woStep]
        rw [if_pos hb]
      rw [hstep]
      have hpp : ∀ r, rowPair (applyWOMeta q.2 r) = rowPair r := by
        intro r
        simp only [applyWOMeta]
        split <;> rfl
      exact map_pair_nodup_of_pointwise _ hpp ts h
    · have hstep : woStep ts q = ts ++ [mkSkeleton q.1 q.2] := by
        simp only [woStep]
        rw [if_neg hb]
      rw [hstep, List.map_append, List.nodup_append]
      refine ⟨h, List.nodup_singleton _, ?_⟩
      intro a ha hb2
      simp only [List.map_cons, List.map_nil, List.mem_singleton] at hb2
      rw [hb2] at ha
      obtain ⟨r0, hr0, hpe⟩ := List.mem_map.mp ha
      have hwo : r0.workOrder = q.2.workOrder := congrArg Prod.fst hpe
      exact hb (List.any_eq_true.mpr ⟨r0, hr0, beq_iff_eq.mpr hwo⟩)

/-- Claim C2 (amended): starting from a collection in which the pair
(workOrder, partNumber) is duplicate-free, the merge-policy import
preserves that uniqueness provided no two records of the batch share a
pair — a batch repeating a pair inserts duplicates, because the key map
is never extended during the loop — and so do the replace-policy import
with such a batch, the four row mutators, archiveModel, and
importWODetails. -/
theorem operations_preserve_key_uniqueness (ts : List TrackingRow) (data : List ERPRecord)
    (wodata : List WODetailRecord) (rowId s1 s2 s3 s4 : String) (b : Bool)
    (hts : (ts.map rowPair).Nodup)
    (hdata : (data.map recPair).Nodup) :
    ((importShortagesMerge ts data).map rowPair).Nodup
    ∧ ((importShortagesReplace ts data).map rowPair).Nodup
    ∧ (((updateDeliveryDate ts rowId s1).1.map rowPair).Nodup)
    ∧ (((updatePurchaserRemark ts rowId s1).1.map rowPair).Nodup)
    ∧ (((updateStageDate ts s2 s3 s1).1.map rowPair).Nodup)
    ∧ (((updateStageReady ts s2 s3 b).1.map rowPair).Nodup)
    ∧ ((archiveModel ts s4 b).map rowPair).Nodup
    ∧ ((importWODetails ts wodata).map rowPair).Nodup := by
  refine ⟨?_, ?_, ?_, ?_, ?_, ?_, ?_, ?_⟩
  · simp only [importShortagesMerge]
    rw [map_rowPair_of_pointwise ((withIdx 0 data).foldl (mergeStep ts) ts)
          (sweepRow (targetWOs data) (data.map recKey))
          (sweepRow_rowPair (targetWOs data) (data.map recKey))]
    refine mergeFold_pair_nodup ts (withIdx 0 data) ts hts ?_ ?_
    · rw [withIdx_map_val recPair data 0]
      exact hdata
    · intro r hr
      exact Or.inl (List.mem_map.mpr ⟨r, hr, rfl⟩)
  · simp only [importShortagesReplace]
    rw [List.map_append, List.nodup_append]
    refine ⟨?_, ?_, ?_⟩
    · refine List.Nodup.sublist (List.Sublist.map _ ?_) hts
      exact (List.filter_sublist _).trans (List.filter_sublist _)
    · rw [List.map_map]
      have hnew := withIdx_map_val recPair data 0
      rw [show ((fun p : Nat × ERPRecord => recPair p.2))
            = rowPair ∘ (fun p : Nat × ERPRecord => mkReplaceRow
                (ts.filter (fun r => !((targetWOs data).contains r.workOrder))) p.1 p.2)
          from rfl] at hnew
      rw [hnew]
      exact hdata
    · intro a ha hb2
      obtain ⟨r0, hr0, hpe⟩ := List.mem_map.mp ha
      obtain ⟨x, hx, hpe2⟩ := List.mem_map.mp hb2
      obtain ⟨p0, hp0, hmk⟩ := List.mem_map.mp hx
      have e1 : a.1 = r0.workOrder := by rw [← hpe]; rfl
      have e2 : a.1 = p0.2.workOrder := by
        rw [← hpe2, ← hmk]
        rfl
      have hmemwo : r0.workOrder ∈ targetWOs data := by
        rw [e1.symm.trans e2]
        exact List.mem_map.mpr ⟨p0.2, mem_withIdx_snd hp0, rfl⟩
      have hcond := (List.mem_filter.mp hr0).2
      rw [Bool.not_eq_true'] at hcond
      rw [List.contains_eq_any_beq, List.any_eq_false] at hcond
      exact hcond r0.workOrder hmemwo (by simp)
  · simp only [updateDeliveryDate]
    split
    · dsimp only
      refine updateFirst_pair_nodup _ _ ?_ ts hts
      intro r
      rfl
    · exact hts
  · simp only [updatePurchaserRemark]
    split
    · dsimp only
      refine updateFirst_pair_nodup _ _ ?_ ts hts
      intro r
      rfl
    · exact hts
  · simp only [updateStageDate]
    refine map_pair_nodup_of_pointwise _ ?_ ts hts
    intro r
    split <;> rfl
  · simp only [updateStageReady]
    refine map_pair_nodup_of_pointwise _ ?_ ts hts
    intro r
    split <;> rfl
  · simp only [archiveModel]
    refine map_pair_nodup_of_pointwise _ ?_ ts hts
    intro r
    split <;> rfl
  · simp only [importWODetails]
    exact woFold_pair_nodup (withIdx 0 wodata) ts hts

def c2Row : TrackingRow :=
  { id := "c2", model := "M2", workOrder := "W2", productPartNumber := none
    partNumber := "P2", partName := "", specification := "", stage := "SMT"
    vendor := "", supplier := "", shortageQty := 4, productionDate := none
    oqcDate := "", isMaterialReady := false, purchaserReplyDate := ""
    purchaserRemark := "", status := Status.Pending, purchaserUsername := ""
    isArchived := false }

def c2Rec : ERPRecord :=
  { model := "", workOrder := "W2", partNumber := "P9", partName := ""
    specification := "", supplier := "", shortageQty := 2
    requiredDate := "", uploadBatch := "" }

/-- Witness for operations_preserve_key_uniqueness on a concrete state
and a duplicate-free batch. -/
theorem operations_preserve_key_uniqueness_witness :
    ([c2Row].map rowPair).Nodup
    ∧ ([c2Rec].map recPair).Nodup
    ∧ ((importShortagesMerge [c2Row] [c2Rec]).map rowPair).Nodup :=
  ⟨by decide, by decide,
   (operations_preserve_key_uniqueness [c2Row] [c2Rec] [] "" "" "" "" "" false
      (by decide) (by decide)).1⟩

end ST
